import Mathlib

/-!
Verification of the enaml block compiler core (`enaml/core/block_compiler.py`)
against its natural-language specification.

The development shallowly embeds the Python source: `VarPool` becomes a

structure over a `Finset` of names, the `BlockCompiler` visitors become
state-passing functions over an explicit compiler state, and every
`CodeGenerator` call becomes an abstract instruction appended to the emitted
instruction stream.  Stacks are modelled with the top at the head of a Lean
list (Python appends and pops at the end of its lists; the two views are
order-isomorphic).  Operations that raise `IndexError` in Python (reading or
popping an empty stack) are modelled with `Option`.
-/

structure VarPool where
  pool : Finset String
deriving DecidableEq

def VarPool.new (p : VarPool) : String × VarPool :=
  let var := "_[var_" ++ toString p.pool.card ++ "]"
  (var, ⟨insert var p.pool⟩)

def VarPool.release (p : VarPool) (name : String) : VarPool :=
  ⟨p.pool.erase name⟩

def varPoolAfterMixedSequence : VarPool :=
  ((((VarPool.mk ∅).new).2.new).2.release "_[var_0]")

structure PyAst where
  refs : List String
deriving DecidableEq

inductive Code where
| evalCode : PyAst → Code
| execCode : PyAst → Code
| isolatedCode : String → Nat → List String → PyAst → Code
deriving DecidableEq

inductive Instr where
| storeGlobalsToFast
| storeHelpersToFast
| setLineno : Nat → Instr
| loadHelperFromFast : String → Instr
| loadName : String → Instr
| loadConstStr : String → Instr
| loadConstNone
| loadConstNat : Nat → Instr
| loadConstBool : Bool → Instr
| loadConstCode : Code → Instr
| loadConstStrTuple : List String → Instr
| loadFast : String → Instr
| storeFast : String → Instr
| loadGlobal : String → Instr
| loadGlobalsFromFast
| loadAttr : String → Instr
| dupTop
| rotTwo
| popTop
| buildMap
| storeMap
| buildTuple : Nat → Instr
| buildClass
| makeFunction
| callFunction : Nat → Instr
| callFunctionVar : Nat → Instr
| beginTrySquashRaise
| endTrySquashRaise
deriving DecidableEq

inductive PyNode where
| pyExpression : PyAst → PyNode
| pyModule : PyAst → PyNode
deriving DecidableEq

structure OperatorExpr where
  lineno : Nat
  operator : String
  value : PyNode
deriving DecidableEq

structure TemplateArg where
  ast : PyAst
  lineno : Nat
deriving DecidableEq

structure TemplateIdents where
  names : List String
  starname : String
deriving DecidableEq

inductive Item where
| childDef (typename identifier : String) (lineno : Nat) (body : List Item)
| templateInst (name : String) (lineno : Nat) (args : List TemplateArg)
    (stararg : Option TemplateArg) (identifiers : Option TemplateIdents)
| storageExpr (lineno : Nat) (name typename kind : String)
    (expr : Option OperatorExpr)
| binding (name : String) (expr : OperatorExpr)

def isStorageItem : Item → Bool
| .storageExpr _ _ _ _ _ => true
| _ => false

structure BlockCompiler where
  var_pool : VarPool
  class_stack : List String
  node_stack : List String
  bind_stack : List String
  code_stack : List Code
  instrs : List Instr
deriving DecidableEq

def scope_key : String := "_[scope_key]"

def node_map : String := "_[node_map]"

def emit (s : BlockCompiler) (l : List Instr) : BlockCompiler :=
  { s with instrs := s.instrs ++ l }

def popStack {α : Type} : List α → Option (α × List α)
| [] => none
| a :: r => some (a, r)

def prepare_block (s : BlockCompiler) : BlockCompiler :=
  emit s [.storeGlobalsToFast, .storeHelpersToFast,
    .loadHelperFromFast "make_object", .callFunction 0, .storeFast scope_key,
    .buildMap, .storeFast node_map]

def dedupFirstAux : List String → List String → List String
| [], _ => []
| a :: l, seen =>
    if a ∈ seen then dedupFirstAux l seen else a :: dedupFirstAux l (a :: seen)

def dedupFirst (l : List String) : List String := dedupFirstAux l []

def rewrite_to_fast_locals (refs : List String) (localNames : List String) :
    Option (List String) :=
  if refs.all (fun r => localNames.contains r) then some (dedupFirst refs)
  else none

def safeEvalDelta (name : String) (lineno : Nat) (cargs : List String)
    (ast : PyAst) : List Instr :=
  [.loadConstCode (.isolatedCode name lineno cargs ast), .makeFunction]
  ++ cargs.map Instr.loadName ++ [.callFunction cargs.length]

def safe_eval_ast (localNames : List String) (ast : PyAst) (name : String)
    (lineno : Nat) (s : BlockCompiler) : Option BlockCompiler := do
  let call_args ← rewrite_to_fast_locals ast.refs localNames
  return emit s (safeEvalDelta name lineno call_args ast)

def pyNodeCode : PyNode → Code
| .pyExpression a => .evalCode a
| .pyModule a => .execCode a

def visitPyNode (n : PyNode) (s : BlockCompiler) : BlockCompiler :=
  { s with code_stack := pyNodeCode n :: s.code_stack }

def opExprDelta (e : OperatorExpr) (nd bn : String) (code : Code) : List Instr :=
  [.setLineno e.lineno, .beginTrySquashRaise,
   .loadHelperFromFast "run_operator", .loadFast nd, .loadConstStr bn,
   .loadConstStr e.operator, .loadConstCode code, .loadGlobalsFromFast,
   .callFunction 5, .popTop, .endTrySquashRaise]

def visitOperatorExpr (e : OperatorExpr) (s : BlockCompiler) :
    Option BlockCompiler := do
  let s1 := visitPyNode e.value s
  let (code, crest) ← popStack s1.code_stack
  let s2 := { s1 with code_stack := crest }
  let nodeTop ← s2.node_stack.head?
  let bindTop ← s2.bind_stack.head?
  return emit s2 (opExprDelta e nodeTop bindTop code)

def visitBindingCore (name : String) (e : OperatorExpr) (s : BlockCompiler) :
    Option BlockCompiler := do
  let s1 := { s with bind_stack := name :: s.bind_stack }
  let s2 ← visitOperatorExpr e s1
  let (_, brest) ← popStack s2.bind_stack
  return { s2 with bind_stack := brest }

def storageDelta (ln : Nat) (name typename kind classTop : String) : List Instr :=
  [.setLineno ln, .beginTrySquashRaise, .loadHelperFromFast "add_storage",
   .loadFast classTop, .loadConstStr name]
  ++ (if typename != "" then [Instr.loadName typename] else [Instr.loadConstNone])
  ++ [.loadConstStr kind, .callFunction 4, .popTop, .endTrySquashRaise]

def visitStorageExprCore (ln : Nat) (name typename kind : String)
    (expr : Option OperatorExpr) (s : BlockCompiler) : Option BlockCompiler := do
  let classTop ← s.class_stack.head?
  let s1 := emit s (storageDelta ln name typename kind classTop)
  match expr with
  | none => return s1
  | some e => do
      let s2 := { s1 with bind_stack := name :: s1.bind_stack }
      let s3 ← visitOperatorExpr e s2
      let (_, brest) ← popStack s3.bind_stack
      return { s3 with bind_stack := brest }

def evalArgs (localNames : List String) (tname : String) :
    List TemplateArg → BlockCompiler → Option BlockCompiler
| [], s => some s
| a :: rest, s => do
    let s1 ← safe_eval_ast localNames a.ast tname a.lineno s
    evalArgs localNames tname rest s1

def idsNames : Option TemplateIdents → List String
| none => []
| some ids => ids.names

def idsStar : Option TemplateIdents → String
| none => ""
| some ids => ids.starname

def unpackSeg : Option TemplateIdents → List Instr
| none => []
| some ids => [.beginTrySquashRaise, .loadHelperFromFast "validate_unpack_size",
    .rotTwo, .loadConstNat ids.names.length,
    .loadConstBool (ids.starname != ""), .callFunction 3, .endTrySquashRaise]

def tiHeader (name : String) (ln : Nat) : List Instr :=
  [.setLineno ln, .loadName name, .beginTrySquashRaise,
   .loadHelperFromFast "validate_template", .rotTwo, .callFunction 1,
   .endTrySquashRaise]

def tiInstSeg (ids : Option TemplateIdents) : List Instr :=
  [.loadHelperFromFast "template_inst_node", .rotTwo,
   .loadConstStrTuple (idsNames ids), .loadConstStr (idsStar ids),
   .callFunction 3]

def tiAppendSeg (parent : String) : List Instr :=
  [.loadFast parent, .loadAttr "children", .loadAttr "append", .rotTwo,
   .callFunction 1, .popTop]

def visitTemplateInstCore (localNames : List String) (name : String) (ln : Nat)
    (args : List TemplateArg) (stararg : Option TemplateArg)
    (identifiers : Option TemplateIdents) (s : BlockCompiler) :
    Option BlockCompiler := do
  let s1 := emit s (tiHeader name ln)
  let s2 ← evalArgs localNames name args s1
  let s3 ← match stararg with
    | none => pure s2
    | some a => safe_eval_ast localNames a.ast name a.lineno s2
  let s4 := if stararg.isSome then emit s3 [.callFunctionVar args.length]
            else emit s3 [.callFunction args.length]
  let s5 := emit s4 (unpackSeg identifiers)
  let s6 := emit s5 (tiInstSeg identifiers)
  let parent ← s6.node_stack.head?
  return emit s6 (tiAppendSeg parent)

def childDefHeader (typename identifier : String) (ln : Nat)
    (hasStorage : Bool) (class_var node_var : String) : List Instr :=
  [.setLineno ln, .loadName typename, .beginTrySquashRaise, .dupTop,
   .loadHelperFromFast "validate_declarative", .rotTwo, .callFunction 1,
   .popTop, .endTrySquashRaise]
  ++ (if hasStorage then
      [Instr.loadConstStr typename, .rotTwo, .buildTuple 1, .buildMap,
       .loadGlobal "__name__", .loadConstStr "__module__", .storeMap,
       .buildClass]
     else [])
  ++ [.dupTop, .storeFast class_var, .loadHelperFromFast "declarative_node",
      .rotTwo, .loadConstStr identifier, .loadFast scope_key, .callFunction 3,
      .storeFast node_var]
  ++ (if identifier != "" then
      [Instr.loadFast node_map, .loadFast node_var, .loadConstStr identifier,
       .storeMap, .popTop]
     else [])

def childDefFooter (parent node_var : String) : List Instr :=
  [.loadFast parent, .loadAttr "children", .loadAttr "append",
   .loadFast node_var, .callFunction 1, .popTop]

mutual

/-- Embedding of the visitor dispatch on one block item (`visit_ChildDef`,
`visit_TemplateInst`, `visit_StorageExpr`, `visit_Binding`). -/
def visitItem (localNames : List String) : Item → BlockCompiler → Option BlockCompiler
| .childDef typename identifier ln body, s => do
    let a1 := s.var_pool.new
    let class_var := a1.1
    let a2 := a1.2.new
    let node_var := a2.1
    let s1 := emit { s with var_pool := a2.2 }
      (childDefHeader typename identifier ln (body.any isStorageItem)
        class_var node_var)
    let s2 := { s1 with class_stack := class_var :: s1.class_stack,
                        node_stack := node_var :: s1.node_stack }
    let s3 ← visitItems localNames body s2
    let pc ← popStack s3.class_stack
    let pn ← popStack s3.node_stack
    let s4 := { s3 with class_stack := pc.2, node_stack := pn.2 }
    let parent ← s4.node_stack.head?
    let s5 := emit s4 (childDefFooter parent node_var)
    return { s5 with var_pool := (s5.var_pool.release class_var).release node_var }
| .templateInst name ln args stararg identifiers, s =>
    visitTemplateInstCore localNames name ln args stararg identifiers s
| .storageExpr ln name typename kind expr, s =>
    visitStorageExprCore ln name typename kind expr s
| .binding name e, s => visitBindingCore name e s

/-- Visit a list of body items in source order. -/
def visitItems (localNames : List String) : List Item → BlockCompiler → Option BlockCompiler
| [], s => some s
| i :: rest, s => do
    let s1 ← visitItem localNames i s
    visitItems localNames rest s1

end

def isFailableHelper (h : String) : Bool :=
  h == "validate_declarative" || h == "validate_template" ||
  h == "validate_unpack_size" || h == "add_storage" || h == "run_operator"

def isFailableHelper7 (h : String) : Bool :=
  isFailableHelper h || h == "declarative_node" || h == "template_inst_node"

def wrapOkP (P : String → Bool) : List Instr → Nat → Option Nat
| [], d => some d
| .beginTrySquashRaise :: r, d => wrapOkP P r (d + 1)
| .endTrySquashRaise :: r, d =>
    match d with
    | 0 => none
    | d' + 1 => wrapOkP P r d'
| .loadHelperFromFast h :: r, d =>
    if d == 0 && P h then none else wrapOkP P r d
| _ :: r, d => wrapOkP P r d

def isPlain : Instr → Bool
| .loadHelperFromFast _ => false
| .beginTrySquashRaise => false
| .endTrySquashRaise => false
| _ => true

def rootState : BlockCompiler := ⟨⟨∅⟩, [], ["_[root]"], [], [], []⟩

def demoBlockItems : List Item :=
  [.childDef "Window" "" 1
    [.childDef "Label" "" 2
      [.binding "text" ⟨3, "=", .pyExpression ⟨[]⟩⟩]]]

def demoBlockOut : BlockCompiler :=
  (visitItems [] demoBlockItems rootState).getD rootState

def demoPlainChild : List Item := [.childDef "Foo" "" 1 []]

def demoPlainChildOut : BlockCompiler :=
  (visitItems [] demoPlainChild rootState).getD rootState

def demoStorageBody : List Item := [.storageExpr 2 "text" "" "attr" none]

def demoStorageOut : BlockCompiler :=
  (visitItem [] (.childDef "Label" "" 1 demoStorageBody) rootState).getD rootState

def opState : BlockCompiler := ⟨⟨∅⟩, ["_[cls]"], ["_[node]"], ["text"], [], []⟩

def demoOpExpr : OperatorExpr := ⟨7, "=", .pyExpression ⟨[]⟩⟩

def demoOpOut : BlockCompiler :=
  (visitOperatorExpr demoOpExpr opState).getD opState

def demoTIArgs : List TemplateArg := [⟨⟨[]⟩, 1⟩, ⟨⟨[]⟩, 1⟩]

def demoTIOut : BlockCompiler :=
  (visitItem []
    (.templateInst "MyTemplate" 1 demoTIArgs none (some ⟨["a", "b"], ""⟩))
    rootState).getD rootState

def demoAst : PyAst := ⟨["a", "b", "a"]⟩

def demoSEOut : BlockCompiler :=
  (safe_eval_ast ["a", "b"] demoAst "f" 4 rootState).getD rootState

def emptyState : BlockCompiler := ⟨⟨∅⟩, [], [], [], [], []⟩

def frameState : BlockCompiler := ⟨⟨∅⟩, ["_[cls]"], ["_[node]"], [], [], []⟩

def demoBindOut : BlockCompiler :=
  (visitItem [] (.binding "text" ⟨5, "=", .pyExpression ⟨[]⟩⟩) frameState).getD
    frameState

def demoStorOut : BlockCompiler :=
  (visitItem []
    (.storageExpr 6 "title" "" "attr" (some ⟨6, "=", .pyModule ⟨[]⟩⟩))
    frameState).getD frameState

theorem varPool_new_reissues_held_name :
    varPoolAfterMixedSequence.new.1 ∈ varPoolAfterMixedSequence.pool ∧
    varPoolAfterMixedSequence.new.1 = "_[var_1]" := by
  constructor
  · decide
  · decide

theorem wrapOkP_append (P : String → Bool) (b : List Instr) :
    ∀ (a : List Instr) (d : Nat),
      wrapOkP P (a ++ b) d = (wrapOkP P a d).bind (wrapOkP P b)
  | [], d => by simp [wrapOkP]
  | i :: r, d => by
      cases i <;> simp only [List.cons_append, wrapOkP]
      case beginTrySquashRaise => exact wrapOkP_append P b r (d + 1)
      case endTrySquashRaise =>
        cases d with
        | zero => simp
        | succ d' => exact wrapOkP_append P b r d'
      case loadHelperFromFast h =>
        by_cases hc : (d == 0 && P h) = true
        · simp [hc]
        · simp only [Bool.not_eq_true] at hc
          simp [hc, wrapOkP_append P b r d]
      all_goals exact wrapOkP_append P b r d

theorem wrapOkP_of_plain (P : String → Bool) :
    ∀ (l : List Instr), (∀ i ∈ l, isPlain i = true) → ∀ d, wrapOkP P l d = some d
  | [], _, d => by simp [wrapOkP]
  | i :: r, h, d => by
      have hi := h i (List.mem_cons_self i r)
      have hr := fun j hj => h j (List.mem_cons_of_mem i hj)
      cases i <;>
        first
        | simpa only [wrapOkP] using wrapOkP_of_plain P r hr d
        | exact absurd hi (by simp [isPlain])

theorem wrapOkP_loadNames (P : String → Bool) :
    ∀ (l : List String) (d : Nat), wrapOkP P (l.map Instr.loadName) d = some d := by
  intro l d
  apply wrapOkP_of_plain
  intro i hi
  simp only [List.mem_map] at hi
  obtain ⟨x, _, rfl⟩ := hi
  rfl

theorem wrapOkP_concat (P : String → Bool) (a b : List Instr)
    (ha : wrapOkP P a 0 = some 0) (hb : wrapOkP P b 0 = some 0) :
    wrapOkP P (a ++ b) 0 = some 0 := by
  rw [wrapOkP_append, ha]
  exact hb

theorem varPool_release_idempotent_noop :
    (∀ (p : VarPool) (n : String), n ∉ p.pool → p.release n = p) ∧
    (∀ (p : VarPool) (n : String), (p.release n).release n = p.release n) := by
  constructor
  · intro p n hn
    cases p with
    | mk pool => simp [VarPool.release, Finset.erase_eq_of_not_mem hn]
  · intro p n
    simp [VarPool.release, Finset.erase_idem]

theorem varPool_release_idempotent_noop_witness :
    ("x" ∉ (VarPool.mk ∅).pool ∧ (VarPool.mk ∅).release "x" = VarPool.mk ∅) ∧
    (((VarPool.mk ∅).release "x").release "x" = (VarPool.mk ∅).release "x" ) := by
  refine ⟨⟨by decide, varPool_release_idempotent_noop.1 (VarPool.mk ∅) "x" (by decide)⟩, ?_⟩
  exact varPool_release_idempotent_noop.2 (VarPool.mk ∅) "x"

theorem emit_emit (s : BlockCompiler) (a b : List Instr) :
    emit (emit s a) b = emit s (a ++ b) := by
  simp [emit]

theorem emit_nil (s : BlockCompiler) : emit s [] = s := by
  simp [emit]

theorem safe_eval_ast_eq (localNames : List String) (ast : PyAst) (name : String)
    (ln : Nat) (s t : BlockCompiler)
    (h : safe_eval_ast localNames ast name ln s = some t) :
    ∃ cargs, rewrite_to_fast_locals ast.refs localNames = some cargs ∧
      t = emit s (safeEvalDelta name ln cargs ast) := by
  unfold safe_eval_ast at h
  cases hr : rewrite_to_fast_locals ast.refs localNames with
  | none => rw [hr] at h; simp at h
  | some cargs =>
      rw [hr] at h
      simp only [Option.bind_eq_bind, Option.some_bind, Option.pure_def, Option.some_inj] at h
      exact ⟨cargs, rfl, h.symm⟩

theorem wrapOkP_safeEvalDelta (P : String → Bool) (name : String) (ln : Nat)
    (cargs : List String) (ast : PyAst) (d : Nat) :
    wrapOkP P (safeEvalDelta name ln cargs ast) d = some d := by
  simp only [safeEvalDelta, List.append_eq, List.cons_append, List.nil_append,
    wrapOkP, wrapOkP_append, wrapOkP_loadNames, Option.some_bind]

theorem loadHelper_not_mem_safeEvalDelta (hl name : String) (ln : Nat)
    (cargs : List String) (ast : PyAst) :
    Instr.loadHelperFromFast hl ∉ safeEvalDelta name ln cargs ast := by
  simp [safeEvalDelta]

theorem evalArgs_eq (localNames : List String) (tn : String) :
    ∀ (l : List TemplateArg) (s t : BlockCompiler),
      evalArgs localNames tn l s = some t →
      ∃ d, t = emit s d ∧ (∀ hl, Instr.loadHelperFromFast hl ∉ d) ∧
        ∀ (P : String → Bool) (k : Nat), wrapOkP P d k = some k
  | [], s, t, h => by
      simp only [evalArgs, Option.some_inj] at h
      exact ⟨[], by simp [← h, emit_nil], by simp, fun P k => by simp [wrapOkP]⟩
  | a :: rest, s, t, h => by
      simp only [evalArgs, Option.bind_eq_bind, Option.bind_eq_some] at h
      obtain ⟨s1, h1, h2⟩ := h
      obtain ⟨cargs, _, rfl⟩ := safe_eval_ast_eq _ _ _ _ _ _ h1
      obtain ⟨d, rfl, hmem, hwrap⟩ := evalArgs_eq localNames tn rest _ _ h2
      refine ⟨safeEvalDelta tn a.lineno cargs a.ast ++ d, emit_emit _ _ _, ?_, ?_⟩
      · intro hl
        simp only [List.mem_append, not_or]
        exact ⟨loadHelper_not_mem_safeEvalDelta hl _ _ _ _, hmem hl⟩
      · intro P k
        rw [wrapOkP_append, wrapOkP_safeEvalDelta, Option.some_bind]
        exact hwrap P k

theorem visitOperatorExpr_eq (e : OperatorExpr) (s t : BlockCompiler)
    (h : visitOperatorExpr e s = some t) :
    ∃ nd ns bn bs, s.node_stack = nd :: ns ∧ s.bind_stack = bn :: bs ∧
      t = emit s (opExprDelta e nd bn (pyNodeCode e.value)) := by
  obtain ⟨vp, cs, nsk, bsk, cds, ins⟩ := s
  cases nsk with
  | nil => simp [visitOperatorExpr, visitPyNode, popStack] at h
  | cons nd ns =>
      cases bsk with
      | nil => simp [visitOperatorExpr, visitPyNode, popStack] at h
      | cons bn bs =>
          refine ⟨nd, ns, bn, bs, rfl, rfl, ?_⟩
          simp only [visitOperatorExpr, visitPyNode, popStack,
            Option.bind_eq_bind, Option.some_bind, List.head?_cons,
            Option.pure_def, Option.some_inj] at h
          exact h.symm

theorem visitBindingCore_eq (name : String) (e : OperatorExpr) (s t : BlockCompiler)
    (h : visitBindingCore name e s = some t) :
    ∃ nd ns, s.node_stack = nd :: ns ∧
      t = emit s (opExprDelta e nd name (pyNodeCode e.value)) := by
  obtain ⟨vp, cs, nsk, bsk, cds, ins⟩ := s
  unfold visitBindingCore at h
  simp only [Option.bind_eq_bind, Option.bind_eq_some] at h
  obtain ⟨s2, h2, h3⟩ := h
  obtain ⟨nd, ns, bn, bs, hn, hb, rfl⟩ := visitOperatorExpr_eq e _ _ h2
  simp only at hn
  injection hb with hb1 hb2
  subst hb1 hb2
  refine ⟨nd, ns, hn, ?_⟩
  simp only [emit, popStack, Option.bind_eq_some, Option.pure_def,
    Option.some_inj] at h3
  obtain ⟨⟨x, xs⟩, hx, rfl⟩ := h3
  simp only [Prod.mk.injEq] at hx
  obtain ⟨rfl, rfl⟩ := hx
  simp [emit]

theorem visitStorageExprCore_eq (ln : Nat) (name typename kind : String)
    (expr : Option OperatorExpr) (s t : BlockCompiler)
    (h : visitStorageExprCore ln name typename kind expr s = some t) :
    ∃ ct cts, s.class_stack = ct :: cts ∧
      ((expr = none ∧ t = emit s (storageDelta ln name typename kind ct)) ∨
       (∃ e nd ns, expr = some e ∧ s.node_stack = nd :: ns ∧
         t = emit s (storageDelta ln name typename kind ct ++
           opExprDelta e nd name (pyNodeCode e.value)))) := by
  obtain ⟨vp, cs, nsk, bsk, cds, ins⟩ := s
  cases cs with
  | nil => simp [visitStorageExprCore] at h
  | cons ct cts =>
      refine ⟨ct, cts, rfl, ?_⟩
      cases expr with
      | none =>
          left
          refine ⟨rfl, ?_⟩
          simp only [visitStorageExprCore, List.head?_cons, Option.bind_eq_bind,
            Option.some_bind, Option.pure_def, Option.some_inj] at h
          exact h.symm
      | some e =>
          right
          simp only [visitStorageExprCore, List.head?_cons, Option.bind_eq_bind,
            Option.some_bind, Option.bind_eq_some, Option.pure_def,
            Option.some_inj] at h
          obtain ⟨s3, h3, h4⟩ := h
          obtain ⟨nd, ns, bn, bs, hn, hb, rfl⟩ := visitOperatorExpr_eq e _ _ h3
          simp only [emit] at hn hb
          injection hb with hb1 hb2
          subst hb1 hb2
          refine ⟨e, nd, ns, rfl, hn, ?_⟩
          obtain ⟨⟨x, xs⟩, hx, rfl⟩ := h4
          simp only [emit, popStack, Prod.mk.injEq] at hx ⊢
          obtain ⟨rfl, rfl⟩ := hx
          simp

theorem visitTemplateInstCore_eq (localNames : List String) (nm : String)
    (ln : Nat) (args : List TemplateArg) (star : Option TemplateArg)
    (ids : Option TemplateIdents) (s t : BlockCompiler)
    (h : visitTemplateInstCore localNames nm ln args star ids s = some t) :
    ∃ ad parent pns, s.node_stack = parent :: pns ∧
      (∀ hl, Instr.loadHelperFromFast hl ∉ ad) ∧
      (∀ (P : String → Bool) (k : Nat), wrapOkP P ad k = some k) ∧
      t = emit s (tiHeader nm ln ++ ad
        ++ [if star.isSome then Instr.callFunctionVar args.length
            else Instr.callFunction args.length]
        ++ unpackSeg ids ++ tiInstSeg ids ++ tiAppendSeg parent) := by
  obtain ⟨vp, cs, nsk, bsk, cds, ins⟩ := s
  cases star with
  | none =>
      simp only [visitTemplateInstCore, Option.bind_eq_bind, Option.bind_eq_some,
        Option.isSome_none, Bool.false_eq_true, if_false, Option.pure_def,
        Option.some_inj] at h
      obtain ⟨s2, h2, h3⟩ := h
      obtain ⟨ad, rfl, hmem, hwrap⟩ := evalArgs_eq _ _ _ _ _ h2
      simp only [emit] at h3
      cases nsk with
      | nil => simp at h3
      | cons parent pns =>
          obtain ⟨p, hp, a, ha, ht⟩ := h3
          subst hp
          simp only [List.head?_cons, Option.some_inj] at ha
          subst ha
          refine ⟨ad, parent, pns, rfl, hmem, hwrap, ?_⟩
          rw [← ht]
          simp [emit, List.append_assoc]
  | some a =>
      simp only [visitTemplateInstCore, Option.bind_eq_bind, Option.bind_eq_some,
        Option.isSome_some, if_true, Option.pure_def, Option.some_inj] at h
      obtain ⟨s2, h2, s3, h3, rest⟩ := h
      obtain ⟨ad, rfl, hmem, hwrap⟩ := evalArgs_eq _ _ _ _ _ h2
      obtain ⟨cargs, hca, rfl⟩ := safe_eval_ast_eq _ _ _ _ _ _ h3
      simp only [emit] at rest
      cases nsk with
      | nil => simp at rest
      | cons parent pns =>
          obtain ⟨p, hp, ht⟩ := rest
          simp only [List.head?_cons, Option.some_inj] at hp
          subst hp
          refine ⟨ad ++ safeEvalDelta nm a.lineno cargs a.ast, parent, pns, rfl,
            ?_, ?_, ?_⟩
          · intro hl
            simp only [List.mem_append, not_or]
            exact ⟨hmem hl, loadHelper_not_mem_safeEvalDelta hl _ _ _ _⟩
          · intro P k
            rw [wrapOkP_append]
            rw [hwrap P k, Option.some_bind]
            exact wrapOkP_safeEvalDelta P _ _ _ _ k
          · rw [← ht]
            simp [emit, List.append_assoc]

theorem wrapOkP_opExprDelta (e : OperatorExpr) (nd bn : String) (c : Code)
    (k : Nat) : wrapOkP isFailableHelper (opExprDelta e nd bn c) k = some k := rfl

theorem wrapOkP_storageDelta (ln : Nat) (name typename kind ct : String)
    (k : Nat) :
    wrapOkP isFailableHelper (storageDelta ln name typename kind ct) k = some k := by
  cases htn : typename != "" <;>
    simp only [storageDelta, htn, if_true, if_false, Bool.false_eq_true] <;> rfl

theorem wrapOkP_tiHeader (nm : String) (ln k : Nat) :
    wrapOkP isFailableHelper (tiHeader nm ln) k = some k := rfl

theorem wrapOkP_unpackSeg (ids : Option TemplateIdents) (k : Nat) :
    wrapOkP isFailableHelper (unpackSeg ids) k = some k := by
  cases ids <;> rfl

theorem wrapOkP_tiInstSeg (ids : Option TemplateIdents) (k : Nat) :
    wrapOkP isFailableHelper (tiInstSeg ids) k = some k := by
  cases k <;> rfl

theorem wrapOkP_tiAppendSeg (parent : String) (k : Nat) :
    wrapOkP isFailableHelper (tiAppendSeg parent) k = some k := rfl

theorem wrapOkP_childDefHeader (tn idf : String) (ln : Nat) (hs : Bool)
    (cv nv : String) (k : Nat) :
    wrapOkP isFailableHelper (childDefHeader tn idf ln hs cv nv) k = some k := by
  cases hs <;> cases hid : idf != "" <;>
    simp only [childDefHeader, hid, if_true, if_false, Bool.false_eq_true] <;>
    cases k <;> rfl

theorem wrapOkP_childDefFooter (parent nv : String) (k : Nat) :
    wrapOkP isFailableHelper (childDefFooter parent nv) k = some k := rfl

mutual

theorem visitItem_spec (localNames : List String) :
    ∀ (i : Item) (s t : BlockCompiler), visitItem localNames i s = some t →
      (t.class_stack = s.class_stack ∧ t.node_stack = s.node_stack ∧
       t.bind_stack = s.bind_stack ∧ t.code_stack = s.code_stack) ∧
      ∃ d, t.instrs = s.instrs ++ d ∧ wrapOkP isFailableHelper d 0 = some 0
  | .childDef tn idf ln body, s, t, h => by
      simp only [visitItem, Option.bind_eq_bind, Option.bind_eq_some,
        Option.pure_def, Option.some_inj] at h
      obtain ⟨s3, hbody, pc, hpc, pn, hpn, p, hp, ht⟩ := h
      obtain ⟨⟨hc3, hn3, hb3, hd3⟩, d, hi3, hw3⟩ :=
        visitItems_spec localNames body _ _ hbody
      simp only [emit] at hc3 hn3 hb3 hd3 hi3
      rw [hc3] at hpc
      rw [hn3] at hpn
      simp only [popStack, Option.some_inj] at hpc hpn
      subst hpc hpn
      subst ht
      refine ⟨⟨rfl, rfl, hb3, hd3⟩,
        childDefHeader tn idf ln (body.any isStorageItem)
            (s.var_pool.new.1) (s.var_pool.new.2.new.1)
          ++ d ++ childDefFooter p (s.var_pool.new.2.new.1), ?_, ?_⟩
      · simp [emit, hi3, List.append_assoc]
      · refine wrapOkP_concat _ _ _ (wrapOkP_concat _ _ _ ?_ hw3) ?_
        · exact wrapOkP_childDefHeader _ _ _ _ _ _ 0
        · exact wrapOkP_childDefFooter _ _ 0
  | .templateInst nm ln args star ids, s, t, h => by
      simp only [visitItem] at h
      obtain ⟨ad, parent, pns, hn, hmem, hwrap, rfl⟩ :=
        visitTemplateInstCore_eq _ _ _ _ _ _ _ _ h
      refine ⟨⟨rfl, rfl, rfl, rfl⟩, _, rfl, ?_⟩
      refine wrapOkP_concat _ _ _ (wrapOkP_concat _ _ _ (wrapOkP_concat _ _ _
        (wrapOkP_concat _ _ _ (wrapOkP_concat _ _ _ (wrapOkP_tiHeader nm ln 0)
          (hwrap _ 0)) ?_) (wrapOkP_unpackSeg ids 0)) (wrapOkP_tiInstSeg ids 0))
        (wrapOkP_tiAppendSeg parent 0)
      cases star <;> rfl
  | .storageExpr ln nm tn kd ex, s, t, h => by
      simp only [visitItem] at h
      obtain ⟨ct, cts, hcs, hcase⟩ := visitStorageExprCore_eq _ _ _ _ _ _ _ h
      rcases hcase with ⟨-, rfl⟩ | ⟨e, nd, ns, -, hn, rfl⟩
      · exact ⟨⟨rfl, rfl, rfl, rfl⟩, _, rfl, wrapOkP_storageDelta ln nm tn kd ct 0⟩
      · exact ⟨⟨rfl, rfl, rfl, rfl⟩, _, rfl,
          wrapOkP_concat _ _ _ (wrapOkP_storageDelta ln nm tn kd ct 0)
            (wrapOkP_opExprDelta e nd nm (pyNodeCode e.value) 0)⟩
  | .binding nm e, s, t, h => by
      simp only [visitItem] at h
      obtain ⟨nd, ns, hn, rfl⟩ := visitBindingCore_eq _ _ _ _ h
      exact ⟨⟨rfl, rfl, rfl, rfl⟩, _, rfl,
        wrapOkP_opExprDelta e nd nm (pyNodeCode e.value) 0⟩

theorem visitItems_spec (localNames : List String) :
    ∀ (l : List Item) (s t : BlockCompiler), visitItems localNames l s = some t →
      (t.class_stack = s.class_stack ∧ t.node_stack = s.node_stack ∧
       t.bind_stack = s.bind_stack ∧ t.code_stack = s.code_stack) ∧
      ∃ d, t.instrs = s.instrs ++ d ∧ wrapOkP isFailableHelper d 0 = some 0
  | [], s, t, h => by
      simp only [visitItems, Option.some_inj] at h
      subst h
      exact ⟨⟨rfl, rfl, rfl, rfl⟩, [], by simp, by simp [wrapOkP]⟩
  | i :: rest, s, t, h => by
      simp only [visitItems, Option.bind_eq_bind, Option.bind_eq_some] at h
      obtain ⟨s1, h1, h2⟩ := h
      obtain ⟨⟨c1, n1, b1, d1⟩, da, hia, hwa⟩ := visitItem_spec localNames i _ _ h1
      obtain ⟨⟨c2, n2, b2, d2⟩, db, hib, hwb⟩ := visitItems_spec localNames rest _ _ h2
      refine ⟨⟨c2.trans c1, n2.trans n1, b2.trans b1, d2.trans d1⟩,
        da ++ db, ?_, wrapOkP_concat _ _ _ hwa hwb⟩
      rw [hib, hia, List.append_assoc]

end

theorem dedupFirstAux_spec :
    ∀ (l seen : List String),
      (dedupFirstAux l seen).Nodup ∧ ∀ a ∈ dedupFirstAux l seen, a ∉ seen
  | [], _ => by simp [dedupFirstAux]
  | b :: l, seen => by
      by_cases hb : b ∈ seen
      · simpa [dedupFirstAux, hb] using dedupFirstAux_spec l seen
      · obtain ⟨hnd, hmem⟩ := dedupFirstAux_spec l (b :: seen)
        refine ⟨?_, ?_⟩
        · simp only [dedupFirstAux, hb, if_false, List.nodup_cons]
          exact ⟨fun hc => (hmem b hc) (List.mem_cons_self b seen), hnd⟩
        · intro a ha
          simp only [dedupFirstAux, hb, if_false, List.mem_cons] at ha
          rcases ha with rfl | ha
          · exact hb
          · intro hs
            exact hmem a ha (List.mem_cons_of_mem b hs)

theorem dedupFirstAux_sublist :
    ∀ (l seen : List String), (dedupFirstAux l seen).Sublist l
  | [], _ => by simp [dedupFirstAux]
  | b :: l, seen => by
      by_cases hb : b ∈ seen
      · simp only [dedupFirstAux, hb, if_true]
        exact (dedupFirstAux_sublist l seen).cons b
      · simp only [dedupFirstAux, hb, if_false]
        exact (dedupFirstAux_sublist l (b :: seen)).cons₂ b

theorem mem_dedupFirstAux :
    ∀ (l seen : List String) (a : String),
      a ∈ dedupFirstAux l seen ↔ (a ∈ l ∧ a ∉ seen)
  | [], _, a => by simp [dedupFirstAux]
  | b :: l, seen, a => by
      by_cases hb : b ∈ seen
      · simp only [dedupFirstAux, hb, if_true, mem_dedupFirstAux l seen a,
          List.mem_cons]
        constructor
        · rintro ⟨h1, h2⟩; exact ⟨Or.inr h1, h2⟩
        · rintro ⟨rfl | h1, h2⟩
          · exact absurd hb h2
          · exact ⟨h1, h2⟩
      · simp only [dedupFirstAux, hb, if_false, List.mem_cons,
          mem_dedupFirstAux l (b :: seen) a]
        constructor
        · rintro (rfl | ⟨h1, h2⟩)
          · exact ⟨Or.inl rfl, hb⟩
          · exact ⟨Or.inr h1, fun hs => h2 (Or.inr hs)⟩
        · rintro ⟨rfl | h1, h2⟩
          · exact Or.inl rfl
          · by_cases hab : a = b
            · exact Or.inl hab
            · exact Or.inr ⟨h1, fun hs => by
                rcases hs with h | h
                · exact hab h
                · exact h2 h⟩

theorem dedupFirst_nodup (l : List String) : (dedupFirst l).Nodup :=
  (dedupFirstAux_spec l []).1

theorem dedupFirst_sublist (l : List String) : (dedupFirst l).Sublist l :=
  dedupFirstAux_sublist l []

theorem mem_dedupFirst (l : List String) (a : String) :
    a ∈ dedupFirst l ↔ a ∈ l := by
  simp [dedupFirst, mem_dedupFirstAux]

theorem block_stack_discipline (localNames : List String) (items : List Item)
    (s t : BlockCompiler) (h : visitItems localNames items s = some t) :
    (t.class_stack = s.class_stack ∧ t.node_stack = s.node_stack ∧
     t.bind_stack = s.bind_stack ∧ t.code_stack = s.code_stack) ∧
    ∀ (e : OperatorExpr) (u v : BlockCompiler),
      visitOperatorExpr e u = some v → v.code_stack = u.code_stack :=
  ⟨(visitItems_spec localNames items s t h).1,
   fun e u v hv => by
     obtain ⟨nd, ns, bn, bs, hn, hb, rfl⟩ := visitOperatorExpr_eq e u v hv
     rfl⟩

theorem block_stack_discipline_witness :
    visitItems [] demoBlockItems rootState = some demoBlockOut ∧
    demoBlockOut.class_stack = [] ∧ demoBlockOut.node_stack = ["_[root]"] ∧
    demoBlockOut.bind_stack = [] ∧ demoBlockOut.code_stack = [] := by
  have hEq : visitItems [] demoBlockItems rootState = some demoBlockOut := by
    decide
  have hs := (block_stack_discipline [] demoBlockItems rootState demoBlockOut hEq).1
  exact ⟨hEq, hs.1, hs.2.1, hs.2.2.1, hs.2.2.2⟩

theorem helper_wrapping_counterexample :
    visitItems [] demoPlainChild rootState = some demoPlainChildOut ∧
    Instr.loadHelperFromFast "declarative_node" ∈ demoPlainChildOut.instrs ∧
    wrapOkP isFailableHelper7 demoPlainChildOut.instrs 0 = none := by
  refine ⟨by decide, by decide, by decide⟩

theorem failable_helper_calls_wrapped (localNames : List String)
    (items : List Item) (s t : BlockCompiler) (hs : s.instrs = [])
    (h : visitItems localNames items s = some t) :
    wrapOkP isFailableHelper t.instrs 0 = some 0 := by
  obtain ⟨-, d, hd, hw⟩ := visitItems_spec localNames items s t h
  rw [hd, hs, List.nil_append]
  exact hw

theorem failable_helper_calls_wrapped_witness :
    visitItems [] demoBlockItems rootState = some demoBlockOut ∧
    wrapOkP isFailableHelper demoBlockOut.instrs 0 = some 0 := by
  have hEq : visitItems [] demoBlockItems rootState = some demoBlockOut := by
    decide
  exact ⟨hEq,
    failable_helper_calls_wrapped [] demoBlockItems rootState demoBlockOut rfl hEq⟩

theorem buildClass_mem_childDefHeader (tn idf : String) (ln : Nat) (hs : Bool)
    (cv nv : String) :
    Instr.buildClass ∈ childDefHeader tn idf ln hs cv nv ↔ hs = true := by
  cases hs <;> cases hid : idf != "" <;> simp [childDefHeader, hid, scope_key, node_map]

theorem tag_mem_childDefHeader (tn idf : String) (ln : Nat) (cv nv : String) :
    Instr.loadConstStr tn ∈ childDefHeader tn idf ln true cv nv ∧
    Instr.loadGlobal "__name__" ∈ childDefHeader tn idf ln true cv nv := by
  cases hid : idf != "" <;> simp [childDefHeader, hid]

theorem buildClass_not_mem_childDefFooter (parent nv : String) :
    Instr.buildClass ∉ childDefFooter parent nv := by
  simp [childDefFooter]

theorem childDef_subclass_iff_storage (localNames : List String)
    (tn idf : String) (ln : Nat) (body : List Item) (s t : BlockCompiler)
    (h : visitItem localNames (.childDef tn idf ln body) s = some t) :
    ∃ cv nv bodyDelta parent,
      t.instrs = s.instrs
        ++ childDefHeader tn idf ln (body.any isStorageItem) cv nv
        ++ bodyDelta ++ childDefFooter parent nv ∧
      (body.any isStorageItem = true ↔
        Instr.buildClass ∈ childDefHeader tn idf ln (body.any isStorageItem) cv nv) ∧
      (body.any isStorageItem = true →
        Instr.loadConstStr tn ∈ childDefHeader tn idf ln (body.any isStorageItem) cv nv ∧
        Instr.loadGlobal "__name__" ∈
          childDefHeader tn idf ln (body.any isStorageItem) cv nv) ∧
      Instr.buildClass ∉ childDefFooter parent nv := by
  simp only [visitItem, Option.bind_eq_bind, Option.bind_eq_some,
    Option.pure_def, Option.some_inj] at h
  obtain ⟨s3, hbody, pc, hpc, pn, hpn, p, hp, ht⟩ := h
  obtain ⟨⟨hc3, hn3, hb3, hd3⟩, d, hi3, hw3⟩ :=
    visitItems_spec localNames body _ _ hbody
  simp only [emit] at hi3
  refine ⟨s.var_pool.new.1, s.var_pool.new.2.new.1, d, p, ?_, ?_, ?_, ?_⟩
  · rw [← ht]
    simp [emit, hi3, List.append_assoc]
  · exact (buildClass_mem_childDefHeader tn idf ln _ _ _).symm
  · intro hst
    rw [hst]
    exact tag_mem_childDefHeader tn idf ln _ _
  · exact buildClass_not_mem_childDefFooter p _

theorem childDef_subclass_iff_storage_witness :
    visitItem [] (.childDef "Label" "" 1 demoStorageBody) rootState
      = some demoStorageOut ∧
    ∃ cv nv bodyDelta parent,
      demoStorageOut.instrs = rootState.instrs
        ++ childDefHeader "Label" "" 1 true cv nv
        ++ bodyDelta ++ childDefFooter parent nv ∧
      (true = true ↔ Instr.buildClass ∈ childDefHeader "Label" "" 1 true cv nv) ∧
      (true = true →
        Instr.loadConstStr "Label" ∈ childDefHeader "Label" "" 1 true cv nv ∧
        Instr.loadGlobal "__name__" ∈ childDefHeader "Label" "" 1 true cv nv) ∧
      Instr.buildClass ∉ childDefFooter parent nv := by
  have hEq : visitItem [] (.childDef "Label" "" 1 demoStorageBody) rootState
      = some demoStorageOut := by decide
  exact ⟨hEq,
    childDef_subclass_iff_storage [] "Label" "" 1 demoStorageBody rootState
      demoStorageOut hEq⟩

theorem operatorExpr_run_operator_emission (e : OperatorExpr)
    (s t : BlockCompiler) (h : visitOperatorExpr e s = some t) :
    ∃ nd bn, s.node_stack.head? = some nd ∧ s.bind_stack.head? = some bn ∧
      t.code_stack = s.code_stack ∧
      t.instrs = s.instrs ++ [.setLineno e.lineno, .beginTrySquashRaise,
        .loadHelperFromFast "run_operator", .loadFast nd, .loadConstStr bn,
        .loadConstStr e.operator, .loadConstCode (pyNodeCode e.value),
        .loadGlobalsFromFast, .callFunction 5, .popTop,
        .endTrySquashRaise] := by
  obtain ⟨nd, ns, bn, bs, hn, hb, rfl⟩ := visitOperatorExpr_eq e s t h
  exact ⟨nd, bn, by rw [hn]; rfl, by rw [hb]; rfl, rfl, by
    simp [emit, opExprDelta]⟩

theorem operatorExpr_run_operator_emission_witness :
    visitOperatorExpr demoOpExpr opState = some demoOpOut ∧
    ∃ nd bn, opState.node_stack.head? = some nd ∧
      opState.bind_stack.head? = some bn ∧
      demoOpOut.code_stack = opState.code_stack ∧
      demoOpOut.instrs = opState.instrs ++ [.setLineno 7, .beginTrySquashRaise,
        .loadHelperFromFast "run_operator", .loadFast nd, .loadConstStr bn,
        .loadConstStr "=", .loadConstCode (pyNodeCode (.pyExpression ⟨[]⟩)),
        .loadGlobalsFromFast, .callFunction 5, .popTop,
        .endTrySquashRaise] := by
  have hEq : visitOperatorExpr demoOpExpr opState = some demoOpOut := by decide
  exact ⟨hEq, operatorExpr_run_operator_emission demoOpExpr opState demoOpOut hEq⟩

theorem templateInst_unpack_validation (localNames : List String)
    (nm : String) (ln : Nat) (args : List TemplateArg)
    (star : Option TemplateArg) (ids : Option TemplateIdents)
    (s t : BlockCompiler)
    (h : visitItem localNames (.templateInst nm ln args star ids) s = some t) :
    ∃ argsDelta parent,
      t.instrs = s.instrs ++ tiHeader nm ln ++ argsDelta
        ++ [if star.isSome then Instr.callFunctionVar args.length
            else Instr.callFunction args.length]
        ++ unpackSeg ids ++ tiInstSeg ids ++ tiAppendSeg parent ∧
      (∀ hl, Instr.loadHelperFromFast hl ∉ argsDelta) ∧
      (Instr.loadHelperFromFast "validate_unpack_size" ∈ unpackSeg ids ↔
        ids.isSome = true) ∧
      (∀ i, ids = some i →
        unpackSeg ids = [.beginTrySquashRaise,
          .loadHelperFromFast "validate_unpack_size", .rotTwo,
          .loadConstNat i.names.length, .loadConstBool (i.starname != ""),
          .callFunction 3, .endTrySquashRaise]) ∧
      (∀ i, ids = some i →
        tiInstSeg ids = [.loadHelperFromFast "template_inst_node", .rotTwo,
          .loadConstStrTuple i.names, .loadConstStr i.starname,
          .callFunction 3]) := by
  simp only [visitItem] at h
  obtain ⟨ad, parent, pns, hn, hmem, hwrap, rfl⟩ :=
    visitTemplateInstCore_eq _ _ _ _ _ _ _ _ h
  refine ⟨ad, parent, ?_, hmem, ?_, ?_, ?_⟩
  · simp [emit, List.append_assoc]
  · cases ids <;> simp [unpackSeg]
  · rintro i rfl
    rfl
  · rintro i rfl
    rfl

theorem templateInst_unpack_validation_witness :
    visitItem []
      (.templateInst "MyTemplate" 1 demoTIArgs none (some ⟨["a", "b"], ""⟩))
      rootState = some demoTIOut ∧
    unpackSeg (some ⟨["a", "b"], ""⟩) = [.beginTrySquashRaise,
      .loadHelperFromFast "validate_unpack_size", .rotTwo, .loadConstNat 2,
      .loadConstBool false, .callFunction 3, .endTrySquashRaise] ∧
    tiInstSeg (some ⟨["a", "b"], ""⟩) = [.loadHelperFromFast
      "template_inst_node", .rotTwo, .loadConstStrTuple ["a", "b"],
      .loadConstStr "", .callFunction 3] ∧
    ∃ argsDelta parent,
      demoTIOut.instrs = rootState.instrs ++ tiHeader "MyTemplate" 1
        ++ argsDelta ++ [Instr.callFunction 2]
        ++ unpackSeg (some ⟨["a", "b"], ""⟩)
        ++ tiInstSeg (some ⟨["a", "b"], ""⟩) ++ tiAppendSeg parent := by
  have hEq : visitItem []
      (.templateInst "MyTemplate" 1 demoTIArgs none (some ⟨["a", "b"], ""⟩))
      rootState = some demoTIOut := by decide
  obtain ⟨ad, parent, hinstr, hmem, hiff, hseg, hinst⟩ :=
    templateInst_unpack_validation [] "MyTemplate" 1 demoTIArgs none
      (some ⟨["a", "b"], ""⟩) rootState demoTIOut hEq
  exact ⟨hEq, hseg _ rfl, hinst _ rfl, ad, parent, hinstr⟩

theorem safe_eval_ast_capture_spec (localNames : List String) (ast : PyAst)
    (name : String) (ln : Nat) (s t : BlockCompiler)
    (h : safe_eval_ast localNames ast name ln s = some t) :
    ∃ cargs,
      cargs.Nodup ∧ cargs.Sublist ast.refs ∧
      (∀ a, a ∈ cargs ↔ a ∈ ast.refs) ∧
      t.instrs = s.instrs
        ++ [.loadConstCode (.isolatedCode name ln cargs ast), .makeFunction]
        ++ cargs.map Instr.loadName ++ [.callFunction cargs.length] := by
  obtain ⟨cargs, hrw, rfl⟩ := safe_eval_ast_eq _ _ _ _ _ _ h
  have hca : cargs = dedupFirst ast.refs := by
    unfold rewrite_to_fast_locals at hrw
    by_cases hall : ast.refs.all (fun r => localNames.contains r) = true
    · rw [if_pos hall, Option.some_inj] at hrw
      exact hrw.symm
    · rw [if_neg hall] at hrw
      cases hrw
  subst hca
  refine ⟨dedupFirst ast.refs, dedupFirst_nodup _, dedupFirst_sublist _,
    mem_dedupFirst _, ?_⟩
  simp [emit, safeEvalDelta, List.append_assoc]

theorem safe_eval_ast_capture_spec_witness :
    safe_eval_ast ["a", "b"] demoAst "f" 4 rootState = some demoSEOut ∧
    ∃ cargs,
      cargs.Nodup ∧ cargs.Sublist demoAst.refs ∧
      (∀ a, a ∈ cargs ↔ a ∈ demoAst.refs) ∧
      demoSEOut.instrs = rootState.instrs
        ++ [.loadConstCode (.isolatedCode "f" 4 cargs demoAst), .makeFunction]
        ++ cargs.map Instr.loadName ++ [.callFunction cargs.length] := by
  have hEq : safe_eval_ast ["a", "b"] demoAst "f" 4 rootState = some demoSEOut := by
    decide
  exact ⟨hEq, safe_eval_ast_capture_spec ["a", "b"] demoAst "f" 4 rootState
    demoSEOut hEq⟩

theorem visit_requires_parent_node (localNames : List String) :
    (∀ (tn idf : String) (ln : Nat) (body : List Item) (s : BlockCompiler),
      s.node_stack = [] →
      visitItem localNames (.childDef tn idf ln body) s = none) ∧
    (∀ (nm : String) (ln : Nat) (args : List TemplateArg)
      (star : Option TemplateArg) (ids : Option TemplateIdents)
      (s : BlockCompiler), s.node_stack = [] →
      visitItem localNames (.templateInst nm ln args star ids) s = none) := by
  constructor
  · intro tn idf ln body s hs
    cases hv : visitItem localNames (.childDef tn idf ln body) s with
    | none => rfl
    | some t =>
        exfalso
        simp only [visitItem, Option.bind_eq_bind, Option.bind_eq_some,
          Option.pure_def, Option.some_inj] at hv
        obtain ⟨s3, hbody, pc, hpc, pn, hpn, p, hp, ht⟩ := hv
        obtain ⟨⟨hc3, hn3, hb3, hd3⟩, -⟩ :=
          visitItems_spec localNames body _ _ hbody
        simp only [emit] at hn3
        rw [hn3, hs] at hpn
        simp only [popStack, Option.some_inj] at hpn
        subst hpn
        simp at hp
  · intro nm ln args star ids s hs
    cases hv : visitItem localNames (.templateInst nm ln args star ids) s with
    | none => rfl
    | some t =>
        exfalso
        simp only [visitItem] at hv
        obtain ⟨ad, parent, pns, hn, -, -, -⟩ :=
          visitTemplateInstCore_eq _ _ _ _ _ _ _ _ hv
        rw [hs] at hn
        cases hn

theorem visit_requires_parent_node_witness :
    visitItem [] (.childDef "Window" "" 1 []) emptyState = none ∧
    visitItem [] (.templateInst "T" 1 [] none none) emptyState = none :=
  ⟨(visit_requires_parent_node []).1 "Window" "" 1 [] emptyState rfl,
   (visit_requires_parent_node []).2 "T" 1 [] none none emptyState rfl⟩

theorem binding_storage_frame_effect (localNames : List String) :
    (∀ (nm : String) (e : OperatorExpr) (s t : BlockCompiler),
      visitItem localNames (.binding nm e) s = some t →
      t.bind_stack = s.bind_stack ∧ t.class_stack = s.class_stack ∧
      t.node_stack = s.node_stack ∧ t.code_stack = s.code_stack) ∧
    (∀ (ln : Nat) (nm tn kd : String) (ex : Option OperatorExpr)
      (s t : BlockCompiler),
      visitItem localNames (.storageExpr ln nm tn kd ex) s = some t →
      t.bind_stack = s.bind_stack ∧ t.class_stack = s.class_stack ∧
      t.node_stack = s.node_stack ∧ t.code_stack = s.code_stack) := by
  constructor
  · intro nm e s t h
    simp only [visitItem] at h
    obtain ⟨nd, ns, hn, rfl⟩ := visitBindingCore_eq _ _ _ _ h
    exact ⟨rfl, rfl, rfl, rfl⟩
  · intro ln nm tn kd ex s t h
    simp only [visitItem] at h
    obtain ⟨ct, cts, hcs, hcase⟩ := visitStorageExprCore_eq _ _ _ _ _ _ _ h
    rcases hcase with ⟨-, rfl⟩ | ⟨e, nd, ns, -, hn, rfl⟩
    · exact ⟨rfl, rfl, rfl, rfl⟩
    · exact ⟨rfl, rfl, rfl, rfl⟩

theorem binding_storage_frame_effect_witness :
    (visitItem [] (.binding "text" ⟨5, "=", .pyExpression ⟨[]⟩⟩) frameState
      = some demoBindOut ∧
     demoBindOut.bind_stack = frameState.bind_stack ∧
     demoBindOut.class_stack = frameState.class_stack ∧
     demoBindOut.node_stack = frameState.node_stack ∧
     demoBindOut.code_stack = frameState.code_stack) ∧
    (visitItem []
        (.storageExpr 6 "title" "" "attr" (some ⟨6, "=", .pyModule ⟨[]⟩⟩))
        frameState = some demoStorOut ∧
     demoStorOut.bind_stack = frameState.bind_stack ∧
     demoStorOut.class_stack = frameState.class_stack ∧
     demoStorOut.node_stack = frameState.node_stack ∧
     demoStorOut.code_stack = frameState.code_stack) := by
  have h1 : visitItem [] (.binding "text" ⟨5, "=", .pyExpression ⟨[]⟩⟩)
      frameState = some demoBindOut := by decide
  have h2 : visitItem []
      (.storageExpr 6 "title" "" "attr" (some ⟨6, "=", .pyModule ⟨[]⟩⟩))
      frameState = some demoStorOut := by decide
  obtain ⟨hb, hs⟩ := binding_storage_frame_effect []
  obtain ⟨b1, b2, b3, b4⟩ := hb "text" ⟨5, "=", .pyExpression ⟨[]⟩⟩ _ _ h1
  obtain ⟨c1, c2, c3, c4⟩ := hs 6 "title" "" "attr"
    (some ⟨6, "=", .pyModule ⟨[]⟩⟩) _ _ h2
  exact ⟨⟨h1, b1, b2, b3, b4⟩, ⟨h2, c1, c2, c3, c4⟩⟩
